import Mathlib

/-!
Verification of the review-notes note store against its specification.

The TypeScript sources are shallowly embedded:
* `Note`, `Priority`, `Category`, `createNote`, `migrateNote`,
  `normalizeFilePath`, `getRelativePath` come from `src/utils.ts`;
* the `NoteStorage` class state (`private notes: Map<string, Note[]>`) becomes
  the association list `Index` (JS `Map` iteration order is insertion order and
  keys are unique), and each method becomes a function on `Index`;
* `Date.now()`, `generateId()` and `os.userInfo().username` are impure inputs
  and are passed as explicit parameters (`now`, `id`, `author`);
* `JSON.parse` failure in `load` is modelled by an `Option` input: `none`
  stands for "the file was unreadable or its content failed to parse".
-/

/-- Priority levels for notes (utils.ts: `type Priority`). -/
inductive Priority where
  | high
  | medium
  | low
deriving DecidableEq, Repr

/-- Category types for notes (utils.ts: `type Category`). -/
inductive Category where
  | todo
  | bug
  | question
  | idea
  | note
deriving DecidableEq, Repr

/-- The Note interface (utils.ts): all seven fields are required. -/
structure Note where
  id : String
  line : Nat
  text : String
  timestamp : Nat
  author : String
  priority : Priority
  category : Category
deriving DecidableEq, Repr

/-- A stored record as read back from the sidecar JSON: `Partial<Note> &
\x7b id; line; text \x7d` — `id`, `line`, `text` are required, the other four
fields may be absent (`none`). -/
structure StoredNote where
  id : String
  line : Nat
  text : String
  timestamp : Option Nat
  author : Option String
  priority : Option Priority
  category : Option Category
deriving DecidableEq, Repr

/-- Embeds `migrateNote` (utils.ts): backfills missing fields with
`Date.now()` (passed as `now`), `"Unknown"`, `medium` and `note` via `??`. -/
def migrateNote (now : Nat) (note : StoredNote) : Note :=
  { id := note.id
    line := note.line
    text := note.text
    timestamp := note.timestamp.getD now
    author := note.author.getD "Unknown"
    priority := note.priority.getD Priority.medium
    category := note.category.getD Category.note }

/-- Embeds `createNote` (utils.ts) with its impure inputs (`Date.now()`,
`generateId()`, `getCurrentUser()`) passed explicitly. -/
def createNote (now : Nat) (id author : String) (line : Nat) (text : String)
    (priority : Priority) (category : Category) : Note :=
  { id := id
    line := line
    text := text
    timestamp := now
    author := author
    priority := priority
    category := category }

/-- Calling `createNote(line, text)` with the optional arguments omitted:
the source declares the defaults `priority = 'medium'`, `category = 'note'`. -/
def createNoteDefaults (now : Nat) (id author : String) (line : Nat)
    (text : String) : Note :=
  createNote now id author line text Priority.medium Category.note

/-- JavaScript `String.prototype.trim`: strip whitespace from both ends. -/
def jsTrim (s : String) : String :=
  String.mk (((s.data.dropWhile Char.isWhitespace).reverse.dropWhile
    Char.isWhitespace).reverse)

/-- Embeds `ReviewNotesProvider.handleCreateNote` (reviewNotesProvider.ts)
reduced to the Note it constructs: trims the reply text, returns `none` when
empty (`if (!text) return`), takes the line from `thread.range?.start.line ??
0`, and calls `createNote` with the explicit defaults `'low'` / `'note'`. -/
def handleCreateNote (now : Nat) (id author : String) (threadLine : Option Nat)
    (replyText : String) : Option Note :=
  let text := jsTrim replyText
  if text.data.isEmpty then none
  else some (createNote now id author (threadLine.getD 0) text
    Priority.low Category.note)

/-- Embeds `normalizeFilePath` (utils.ts): `replace(/\\/g, '/')`, i.e. every
backslash becomes a forward slash. -/
def normalizeFilePath (filePath : String) : String :=
  String.mk (filePath.data.map (fun c => if c = '\\' then '/' else c))

/-- JavaScript `s.startsWith('.')` specialised to the one-character pattern
used in `getRelativePath`: the first character is a dot. -/
def jsStartsWithDot (s : String) : Bool :=
  match s.data with
  | [] => false
  | c :: _ => c == '.'

/-- Embeds `getRelativePath` (utils.ts). The call to Node's
`path.relative(workspaceRoot, absolutePath)` is a library call outside the
repository; its result is abstracted as the input `rel`. The function
normalizes separators and prepends `./` unless the result already starts
with a dot. -/
def getRelativePath (rel : String) : String :=
  if jsStartsWithDot (normalizeFilePath rel) then normalizeFilePath rel
  else "./" ++ normalizeFilePath rel

/-- The in-memory index `private notes: Map<string, Note[]>` of
`NoteStorage`, as an insertion-ordered association list with unique keys. -/
abbrev Index : Type := List (String × List Note)

/-- JS `Map.prototype.get`, returning `undefined` as `none`. -/
def mapGet (idx : Index) (k : String) : Option (List Note) :=
  (List.find? (fun e => e.1 == k) idx).map (fun e => e.2)

/-- JS `Map.prototype.set`: overwrite in place when the key exists, append a
new entry otherwise (iteration order keeps the first-insertion position). -/
def mapSet (idx : Index) (k : String) (v : List Note) : Index :=
  if List.any idx (fun e => e.1 == k) then
    List.map (fun e => if e.1 == k then (k, v) else e) idx
  else
    idx ++ [(k, v)]

/-- JS `Map.prototype.delete`. -/
def mapDelete (idx : Index) (k : String) : Index :=
  List.filter (fun e => !(e.1 == k)) idx

/-- Mutating the first list element satisfying `p` in place (JS
`array.find(...)` followed by assignments to the found object). -/
def updateFirst (p : Note → Bool) (f : Note → Note) : List Note → List Note
  | [] => []
  | n :: rest => if p n then f n :: rest else n :: updateFirst p f rest

/-- JS `findIndex` followed by `splice(index, 1)`: remove the first list
element satisfying `p`; the list is unchanged when none matches. -/
def removeFirst (p : Note → Bool) : List Note → List Note
  | [] => []
  | n :: rest => if p n then rest else n :: removeFirst p rest

/-- Embeds `NoteStorage.getTotalNoteCount`: a running count of `notes.length`
over the map values. -/
def getTotalNoteCount (idx : Index) : Nat :=
  idx.foldl (fun count e => count + e.2.length) 0

/-- Embeds `NoteStorage.getNoteById`: scan the files in map order and return
the first note whose `id` matches, together with its file path. -/
def getNoteById (idx : Index) (noteId : String) : Option (Note × String) :=
  match idx with
  | [] => none
  | e :: rest =>
    match e.2.find? (fun n => n.id == noteId) with
    | some n => some (n, e.1)
    | none => getNoteById rest noteId

/-- In-place mutation of the note found by `getNoteById`: rewrite the first
matching note of the first file that contains the id. -/
def updateById (noteId : String) (f : Note → Note) : Index → Index
  | [] => []
  | e :: rest =>
    if e.2.any (fun n => n.id == noteId) then
      (e.1, updateFirst (fun n => n.id == noteId) f e.2) :: rest
    else
      e :: updateById noteId f rest

/-- Embeds `NoteStorage.addNote`: `key` stands for the computed
`normalizeFilePath(getRelativePath(fileUri.fsPath, workspaceRoot))`; the note
is pushed onto the file's array (`|| []`) and the array is `set` back. -/
def addNote (idx : Index) (key : String) (note : Note) : Index :=
  mapSet idx key ((mapGet idx key).getD [] ++ [note])

/-- Embeds `NoteStorage.updateNote`: look up the file's array, find the note
by id, and when found overwrite `text` and refresh `timestamp`; otherwise the
index is untouched. -/
def updateNote (idx : Index) (key noteId newText : String) (now : Nat) :
    Index :=
  match mapGet idx key with
  | none => idx
  | some fileNotes =>
    if fileNotes.any (fun n => n.id == noteId) then
      mapSet idx key (updateFirst (fun n => n.id == noteId)
        (fun n => { n with text := newText, timestamp := now }) fileNotes)
    else idx

/-- Embeds `NoteStorage.updateNotePriority`: `getNoteById`, then mutate the
found note's `priority` and `timestamp` in place. -/
def updateNotePriority (idx : Index) (noteId : String) (priority : Priority)
    (now : Nat) : Index :=
  match getNoteById idx noteId with
  | none => idx
  | some _ =>
    updateById noteId (fun n => { n with priority := priority
                                         timestamp := now }) idx

/-- Embeds `NoteStorage.updateNoteCategory`: `getNoteById`, then mutate the
found note's `category` and `timestamp` in place. -/
def updateNoteCategory (idx : Index) (noteId : String) (category : Category)
    (now : Nat) : Index :=
  match getNoteById idx noteId with
  | none => idx
  | some _ =>
    updateById noteId (fun n => { n with category := category
                                         timestamp := now }) idx

/-- Embeds `NoteStorage.deleteNote`: find the note by id in the file's array,
splice it out, and drop the map entry when the array became empty. -/
def deleteNote (idx : Index) (key noteId : String) : Index :=
  match mapGet idx key with
  | none => idx
  | some fileNotes =>
    if fileNotes.any (fun n => n.id == noteId) then
      let remaining := removeFirst (fun n => n.id == noteId) fileNotes
      if remaining.isEmpty then mapDelete idx key
      else mapSet idx key remaining
    else idx

/-- The body of `NoteStorage.load` after a successful `JSON.parse`:
`notes.clear()` and then, per entry of the parsed object, `set` under the
normalized path the record array run through `migrateNote`. -/
def loadData (data : List (String × List StoredNote)) (now : Nat) : Index :=
  data.foldl
    (fun acc e => mapSet acc (normalizeFilePath e.1)
      (e.2.map (migrateNote now))) []

/-- Embeds `NoteStorage.load` around its try/catch: `parsed = some data`
is a successful read and parse of the sidecar file; `parsed = none` covers
both a missing file and a thrown read/parse error, in which case control
reaches the `catch` (or skips the body) before `notes.clear()` ran, leaving
the previous in-memory index untouched. No exception escapes to the caller. -/
def load (prev : Index) (parsed : Option (List (String × List StoredNote)))
    (now : Nat) : Index :=
  match parsed with
  | some data => loadData data now
  | none => prev

/-- The object built by `NoteStorage.saveNow` before `JSON.stringify`: map
entries whose arrays are non-empty, in map iteration order. -/
def saveNowData (idx : Index) : List (String × List Note) :=
  idx.filter (fun e => !e.2.isEmpty)

/-- A complete note as it parses back from the sidecar JSON written by
`JSON.stringify`: every field present. -/
def storedOfNote (n : Note) : StoredNote :=
  { id := n.id
    line := n.line
    text := n.text
    timestamp := some n.timestamp
    author := some n.author
    priority := some n.priority
    category := some n.category }

/-- Save-then-load pipeline: serialize with `saveNow`, parse each record back
(all fields present), and run `load` on the result. -/
def loadOfSave (idx : Index) (now : Nat) : Index :=
  loadData ((saveNowData idx).map (fun e => (e.1, e.2.map storedOfNote))) now

/-- A concrete fully-populated note used to instantiate theorems below. -/
def demoNote : Note :=
  { id := "1700000000000-abc123def"
    line := 9
    text := "fix this"
    timestamp := 1700000000000
    author := "alice"
    priority := Priority.low
    category := Category.note }

/-- A concrete stored record missing `priority` and `timestamp` while
carrying explicit `category` and `author`. -/
def demoStored : StoredNote :=
  { id := "n1"
    line := 4
    text := "check this"
    timestamp := none
    author := some "bob"
    priority := none
    category := some Category.bug }

/-- C2: migrating a stored record preserves `id`, `line` and `text`
unchanged, fills a missing `priority`, `category`, `author` or `timestamp`
with `medium`, `note`, `"Unknown"` and the current time respectively, and
leaves each of those four fields unchanged when it is present. -/
theorem migrateNote_fills_missing_preserves_present (r : StoredNote)
    (now : Nat) :
    (migrateNote now r).id = r.id ∧
    (migrateNote now r).line = r.line ∧
    (migrateNote now r).text = r.text ∧
    (r.priority = none → (migrateNote now r).priority = Priority.medium) ∧
    (r.category = none → (migrateNote now r).category = Category.note) ∧
    (r.author = none → (migrateNote now r).author = "Unknown") ∧
    (r.timestamp = none → (migrateNote now r).timestamp = now) ∧
    (∀ p, r.priority = some p → (migrateNote now r).priority = p) ∧
    (∀ c, r.category = some c → (migrateNote now r).category = c) ∧
    (∀ a, r.author = some a → (migrateNote now r).author = a) ∧
    (∀ t, r.timestamp = some t → (migrateNote now r).timestamp = t) := by
  refine ⟨rfl, rfl, rfl, ?_, ?_, ?_, ?_, ?_, ?_, ?_, ?_⟩ <;>
    first
      | (intro h; simp [migrateNote, h])
      | (intro x h; simp [migrateNote, h])

/-- Witness for C2 at a concrete record: missing `priority`/`timestamp` get
`medium` and the supplied current time `99`, present `category`/`author` are
kept, and `id`, `line`, `text` are unchanged. -/
theorem migrateNote_fills_missing_preserves_present_witness :
    (migrateNote 99 demoStored).id = "n1" ∧
    (migrateNote 99 demoStored).line = 4 ∧
    (migrateNote 99 demoStored).text = "check this" ∧
    (migrateNote 99 demoStored).priority = Priority.medium ∧
    (migrateNote 99 demoStored).timestamp = 99 ∧
    (migrateNote 99 demoStored).category = Category.bug ∧
    (migrateNote 99 demoStored).author = "bob" := by
  have h := migrateNote_fills_missing_preserves_present demoStored 99
  exact ⟨h.1, h.2.1, h.2.2.1,
    h.2.2.2.1 rfl,
    h.2.2.2.2.2.2.1 rfl,
    h.2.2.2.2.2.2.2.2.1 Category.bug rfl,
    h.2.2.2.2.2.2.2.2.2.1 "bob" rfl⟩

/-- C6: a note created through the interactive flow (`handleCreateNote`)
carries priority `low` and category `note`, while the helper constructor
`createNote` called without explicit priority/category arguments yields
priority `medium` and category `note` — two distinct defaults. -/
theorem create_flows_use_distinct_priority_defaults
    (now : Nat) (id author : String) (threadLine : Option Nat)
    (replyText : String) (line : Nat) (text : String) (n : Note)
    (h : handleCreateNote now id author threadLine replyText = some n) :
    n.priority = Priority.low ∧
    n.category = Category.note ∧
    (createNoteDefaults now id author line text).priority = Priority.medium ∧
    (createNoteDefaults now id author line text).category = Category.note := by
  unfold handleCreateNote at h
  by_cases he : (jsTrim replyText).data.isEmpty
  · simp [he] at h
  · simp [he] at h
    subst h
    exact ⟨rfl, rfl, rfl, rfl⟩

/-- Witness for C6: the interactive flow on reply text `"hi"` produces a
note, and the defaults of the two entry points are `low` versus `medium`. -/
theorem create_flows_use_distinct_priority_defaults_witness :
    handleCreateNote 5 "id1" "ua" (some 3) "hi" =
      some (createNote 5 "id1" "ua" 3 "hi" Priority.low Category.note) ∧
    (createNote 5 "id1" "ua" 3 "hi" Priority.low Category.note).priority =
      Priority.low ∧
    (createNote 5 "id1" "ua" 3 "hi" Priority.low Category.note).category =
      Category.note ∧
    (createNoteDefaults 5 "id1" "ua" 3 "hi").priority = Priority.medium ∧
    (createNoteDefaults 5 "id1" "ua" 3 "hi").category = Category.note := by
  have heq : handleCreateNote 5 "id1" "ua" (some 3) "hi" =
      some (createNote 5 "id1" "ua" 3 "hi" Priority.low Category.note) := by
    decide
  have h := create_flows_use_distinct_priority_defaults 5 "id1" "ua"
    (some 3) "hi" 3 "hi" (createNote 5 "id1" "ua" 3 "hi" Priority.low
      Category.note) heq
  exact ⟨heq, h.1, h.2.1, h.2.2.1, h.2.2.2⟩

/-- A concrete non-empty index holding one file with one note. -/
def demoIndex : Index := [("./a.ts", [demoNote])]

/-- C4 counterexample: when the sidecar content fails to parse, `load` does
not leave the index empty — with the non-empty prior index `demoIndex`, the
index after the failing load is still `demoIndex`, which is not the empty
index. `JSON.parse` throws before `notes.clear()` runs, so the `catch` arm
observes the untouched previous state. -/
theorem load_parse_error_leaves_previous_index :
    load demoIndex none 0 = demoIndex ∧ demoIndex ≠ ([] : Index) := by
  exact ⟨rfl, by decide⟩

/-- C4 amended: on a read or parse failure, `load` leaves the in-memory
index exactly in its previous state (so it is empty only when the previous
state was already empty, e.g. on the very first load), and the failure does
not escape to the caller — `load` is total and returns an index. -/
theorem load_parse_error_keeps_last_known_good
    (prev : Index) (now : Nat) : load prev none now = prev := by
  rfl

/-- When the id-scan finds nothing, no file's array contains the id. -/
theorem getNoteById_none_no_match (idx : Index) (noteId : String)
    (h : getNoteById idx noteId = none) :
    ∀ e ∈ idx, e.2.any (fun n => n.id == noteId) = false := by
  induction idx with
  | nil => intro e he; cases he
  | cons e rest ih =>
    intro e2 he2
    unfold getNoteById at h
    cases hf : e.2.find? (fun n => n.id == noteId) with
    | some n => rw [hf] at h; cases h
    | none =>
      rw [hf] at h
      cases he2 with
      | head =>
        rw [List.find?_eq_none] at hf
        simp only [List.any_eq_false]
        intro n hn
        exact hf n hn
      | tail _ hmem => exact ih h e2 hmem

/-- A successful map lookup returns the array of some entry of the index. -/
theorem mapGet_some_mem (idx : Index) (k : String) (ns : List Note)
    (h : mapGet idx k = some ns) : ∃ e, e ∈ idx ∧ e.2 = ns := by
  unfold mapGet at h
  cases hf : List.find? (fun e => e.1 == k) idx with
  | none => rw [hf] at h; cases h
  | some e =>
    rw [hf] at h
    refine ⟨e, List.mem_of_find?_eq_some hf, ?_⟩
    simpa using h

/-- If no entry's array contains the id, the in-place id update is the
identity on the index. -/
theorem updateById_no_match (idx : Index) (noteId : String) (f : Note → Note)
    (h : ∀ e ∈ idx, e.2.any (fun n => n.id == noteId) = false) :
    updateById noteId f idx = idx := by
  induction idx with
  | nil => rfl
  | cons e rest ih =>
    unfold updateById
    rw [h e (List.mem_cons_self e rest)]
    simp only [Bool.false_eq_true, if_false]
    rw [ih (fun e2 he2 => h e2 (List.mem_cons_of_mem e he2))]

/-- C5: calling `deleteNote`, `updateNote`, `updateNotePriority` or
`updateNoteCategory` with a note id that occurs nowhere in the index is a
silent no-op: the index is returned exactly unchanged, and — the embedding
being a total function — no exception is raised. -/
theorem missing_id_operations_are_noops (idx : Index)
    (key noteId newText : String) (p : Priority) (c : Category) (now : Nat)
    (h : getNoteById idx noteId = none) :
    deleteNote idx key noteId = idx ∧
    updateNote idx key noteId newText now = idx ∧
    updateNotePriority idx noteId p now = idx ∧
    updateNoteCategory idx noteId c now = idx := by
  have hall := getNoteById_none_no_match idx noteId h
  refine ⟨?_, ?_, ?_, ?_⟩
  · unfold deleteNote
    cases hg : mapGet idx key with
    | none => rfl
    | some fileNotes =>
      obtain ⟨e, he, hev⟩ := mapGet_some_mem idx key fileNotes hg
      have hfa : fileNotes.any (fun n => n.id == noteId) = false := by
        rw [← hev]; exact hall e he
      simp [hfa]
  · unfold updateNote
    cases hg : mapGet idx key with
    | none => rfl
    | some fileNotes =>
      obtain ⟨e, he, hev⟩ := mapGet_some_mem idx key fileNotes hg
      have hfa : fileNotes.any (fun n => n.id == noteId) = false := by
        rw [← hev]; exact hall e he
      simp [hfa]
  · unfold updateNotePriority
    rw [h]
  · unfold updateNoteCategory
    rw [h]

/-- Witness for C5: on the concrete one-file index, the four operations
called with the absent id `"zzz"` all return the index unchanged. -/
theorem missing_id_operations_are_noops_witness :
    deleteNote demoIndex "./a.ts" "zzz" = demoIndex ∧
    updateNote demoIndex "./a.ts" "zzz" "new text" 7 = demoIndex ∧
    updateNotePriority demoIndex "zzz" Priority.high 7 = demoIndex ∧
    updateNoteCategory demoIndex "zzz" Category.todo 7 = demoIndex :=
  missing_id_operations_are_noops demoIndex "./a.ts" "zzz" "new text"
    Priority.high Category.todo 7 (by decide)

/-- The slash-normalizing character map is idempotent. -/
theorem slashChar_idem (c : Char) :
    (if (if c = '\\' then '/' else c) = '\\' then '/'
     else (if c = '\\' then '/' else c)) = (if c = '\\' then '/' else c) := by
  by_cases h : c = '\\' <;> simp [h]

/-- Normalizing a file path twice is the same as normalizing once. -/
theorem normalizeFilePath_idem (s : String) :
    normalizeFilePath (normalizeFilePath s) = normalizeFilePath s := by
  unfold normalizeFilePath
  refine congrArg String.mk ?_
  rw [List.map_map]
  apply List.map_congr_left
  intro c _
  exact slashChar_idem c

/-- Normalized paths contain no backslash. -/
theorem normalizeFilePath_no_backslash (s : String) :
    ∀ c ∈ (normalizeFilePath s).data, c ≠ '\\' := by
  intro c hc
  unfold normalizeFilePath at hc
  rcases List.mem_map.mp hc with ⟨x, _, hx⟩
  subst hx
  by_cases h : x = '\\'
  · simp [h]
  · simp [h]

/-- C7 counterexample: the relative path `.github/ci.yml` — the location of
a file under the workspace root inside a dot-directory, exactly as Node's
`path.relative` reports it — already starts with a dot, so `getRelativePath`
returns it unchanged and the resulting index key does not begin with the
two-character prefix `./`. -/
theorem relative_key_dotfile_lacks_dot_slash :
    normalizeFilePath (getRelativePath ".github/ci.yml") = ".github/ci.yml" ∧
    (normalizeFilePath (getRelativePath ".github/ci.yml")).data.take 2 ≠
      ['.', '/'] := by
  constructor
  · rfl
  · decide

/-- C7 amended: the index key `normalizeFilePath (getRelativePath rel)`
always uses forward slashes only (no backslash survives), and it begins with
the prefix `./` followed by the normalized relative path precisely when that
normalized relative path does not itself start with a dot; when it does (a
dot-file or dot-directory at the top level, or a `..`-escaping path), the key
is the normalized relative path unchanged, without a `./` prefix. -/
theorem relative_key_forward_slashes_and_dot_slash (rel : String) :
    (∀ c ∈ (normalizeFilePath (getRelativePath rel)).data, c ≠ '\\') ∧
    (jsStartsWithDot (normalizeFilePath rel) = false →
      (normalizeFilePath (getRelativePath rel)).data =
        '.' :: '/' :: (normalizeFilePath rel).data) ∧
    (jsStartsWithDot (normalizeFilePath rel) = true →
      normalizeFilePath (getRelativePath rel) = normalizeFilePath rel) := by
  refine ⟨normalizeFilePath_no_backslash _, ?_, ?_⟩
  · intro h
    unfold getRelativePath
    rw [h]
    simp only [Bool.false_eq_true, if_false]
    have hmap : (normalizeFilePath rel).data.map
        (fun c => if c = '\\' then '/' else c) =
        (normalizeFilePath rel).data :=
      congrArg String.data (normalizeFilePath_idem rel)
    have hdot : ("./" : String).data.map
        (fun c => if c = '\\' then '/' else c) = ['.', '/'] := by decide
    have hstep : (normalizeFilePath ("./" ++ normalizeFilePath rel)).data =
        ("./" : String).data.map (fun c => if c = '\\' then '/' else c) ++
          (normalizeFilePath rel).data.map
            (fun c => if c = '\\' then '/' else c) := by
      show ("./" ++ normalizeFilePath rel).data.map
        (fun c => if c = '\\' then '/' else c) = _
      rw [String.data_append, List.map_append]
    rw [hstep, hdot, hmap]
    rfl
  · intro h
    unfold getRelativePath
    rw [h]
    simp only [if_true]
    exact normalizeFilePath_idem rel

/-- Witness for C7 amended: the Windows-style relative path `src\app.ts`
normalizes to `src/app.ts`, does not start with a dot, and its index key is
`./src/app.ts`. -/
theorem relative_key_forward_slashes_and_dot_slash_witness :
    jsStartsWithDot (normalizeFilePath "src\\app.ts") = false ∧
    (normalizeFilePath (getRelativePath "src\\app.ts")).data =
      '.' :: '/' :: (normalizeFilePath "src\\app.ts").data :=
  ⟨by decide,
   (relative_key_forward_slashes_and_dot_slash "src\\app.ts").2.1 (by decide)⟩

/-- Migration is the identity on a record that parses back from a note the
store itself serialized (all fields present). -/
theorem migrateNote_storedOfNote (now : Nat) (n : Note) :
    migrateNote now (storedOfNote n) = n := rfl

/-- Setting a key that is absent appends the new entry at the end. -/
theorem mapSet_of_absent (idx : Index) (k : String) (v : List Note)
    (h : List.any idx (fun e => e.1 == k) = false) :
    mapSet idx k v = idx ++ [(k, v)] := by
  simp [mapSet, h]

/-- Round-tripping a note array through serialization and migration is the
identity. -/
theorem map_migrate_stored (now : Nat) (ns : List Note) :
    (ns.map storedOfNote).map (migrateNote now) = ns := by
  rw [List.map_map]
  have h : (migrateNote now ∘ storedOfNote) = fun n => n :=
    funext (fun n => migrateNote_storedOfNote now n)
  rw [h]
  exact List.map_id ns

/-- Folding `Map.set` over entries with normalized, pairwise-distinct keys
that are all absent from the accumulator appends the entries in order. -/
theorem loadData_foldl_saved (now : Nat) (l : Index) :
    ∀ acc : Index,
    (∀ e ∈ l, normalizeFilePath e.1 = e.1) →
    List.Nodup (l.map (fun e => e.1)) →
    (∀ e ∈ l, acc.any (fun e2 => e2.1 == e.1) = false) →
    List.foldl
      (fun acc2 e => mapSet acc2 (normalizeFilePath e.1)
        ((e.2.map storedOfNote).map (migrateNote now))) acc l = acc ++ l := by
  induction l with
  | nil =>
    intro acc _ _ _
    simp
  | cons e rest ih =>
    intro acc hnorm hnodup hacc
    have hstep : mapSet acc (normalizeFilePath e.1)
        ((e.2.map storedOfNote).map (migrateNote now)) = acc ++ [e] := by
      rw [hnorm e (List.mem_cons_self e rest), map_migrate_stored]
      rw [mapSet_of_absent acc e.1 e.2 (hacc e (List.mem_cons_self e rest))]
    rw [List.foldl_cons, hstep]
    have hnodup2 : List.Nodup (rest.map (fun e2 => e2.1)) :=
      (List.nodup_cons.mp hnodup).2
    have hhead : e.1 ∉ rest.map (fun e2 => e2.1) :=
      (List.nodup_cons.mp hnodup).1
    have hacc2 : ∀ e2 ∈ rest, (acc ++ [e]).any
        (fun x => x.1 == e2.1) = false := by
      intro e2 he2
      rw [List.any_append]
      have h1 : acc.any (fun x => x.1 == e2.1) = false :=
        hacc e2 (List.mem_cons_of_mem e he2)
      have hne : e.1 ≠ e2.1 := by
        intro hcontra
        exact hhead (hcontra ▸ List.mem_map.mpr ⟨e2, he2, rfl⟩)
      have h2 : List.any [e] (fun x => x.1 == e2.1) = false := by
        simp [List.any_cons, hne]
      rw [h1, h2]
      rfl
    rw [ih (acc ++ [e]) (fun e2 he2 => hnorm e2 (List.mem_cons_of_mem e he2))
      hnodup2 hacc2]
    rw [List.append_assoc]
    rfl

/-- With non-empty arrays everywhere, `saveNow` drops nothing. -/
theorem saveNowData_eq_self (idx : Index) (hne : ∀ e ∈ idx, e.2 ≠ []) :
    saveNowData idx = idx := by
  apply List.filter_eq_self.mpr
  intro e he
  cases h2 : e.2 with
  | nil => exact absurd h2 (hne e he)
  | cons a as => rfl

/-- C1: serializing an in-memory index with `saveNow` and reloading the
result with `load` reproduces the index exactly — every file maps to the
same notes with identical `id`, `line`, `text`, `timestamp`, `author`,
`priority` and `category`. The hypotheses state exactly what holds of every
index the store builds: keys are normalized (every insertion goes through
`normalizeFilePath`), keys are unique (they live in a JS `Map`), and no file
maps to an empty array. Not even reordering occurs. -/
theorem save_load_roundtrip (idx : Index) (now : Nat)
    (hnorm : ∀ e ∈ idx, normalizeFilePath e.1 = e.1)
    (hne : ∀ e ∈ idx, e.2 ≠ [])
    (hnodup : List.Nodup (idx.map (fun e => e.1))) :
    loadOfSave idx now = idx := by
  unfold loadOfSave loadData
  rw [saveNowData_eq_self idx hne, List.foldl_map]
  have h := loadData_foldl_saved now idx [] hnorm hnodup
    (fun e _ => rfl)
  simpa using h

/-- Witness for C1: the concrete one-file index round-trips unchanged. -/
theorem save_load_roundtrip_witness : loadOfSave demoIndex 7 = demoIndex :=
  save_load_roundtrip demoIndex 7 (by decide) (by decide) (by decide)

/-- States of the store index reachable through the operations named by the
specification, with `load` allowed to read arbitrary parse-valid sidecar
content (the sidecar file can be modified externally). -/
inductive ReachableAny : Index → Prop where
  | init : ReachableAny []
  | loadStep (idx : Index) (data : List (String × List StoredNote))
      (now : Nat) : ReachableAny idx → ReachableAny (load idx (some data) now)
  | addStep (idx : Index) (key : String) (n : Note) :
      ReachableAny idx → ReachableAny (addNote idx key n)
  | updateStep (idx : Index) (key noteId newText : String) (now : Nat) :
      ReachableAny idx → ReachableAny (updateNote idx key noteId newText now)
  | updatePrioStep (idx : Index) (noteId : String) (p : Priority) (now : Nat) :
      ReachableAny idx → ReachableAny (updateNotePriority idx noteId p now)
  | updateCatStep (idx : Index) (noteId : String) (c : Category) (now : Nat) :
      ReachableAny idx → ReachableAny (updateNoteCategory idx noteId c now)
  | deleteStep (idx : Index) (key noteId : String) :
      ReachableAny idx → ReachableAny (deleteNote idx key noteId)

/-- Reachable states when every loaded sidecar entry carries at least one
record — in particular whenever the sidecar was produced by `saveNow`, which
omits empty arrays. -/
inductive ReachableSaved : Index → Prop where
  | init : ReachableSaved []
  | loadStep (idx : Index) (data : List (String × List StoredNote))
      (now : Nat) : ReachableSaved idx → (∀ e ∈ data, e.2 ≠ []) →
      ReachableSaved (load idx (some data) now)
  | addStep (idx : Index) (key : String) (n : Note) :
      ReachableSaved idx → ReachableSaved (addNote idx key n)
  | updateStep (idx : Index) (key noteId newText : String) (now : Nat) :
      ReachableSaved idx → ReachableSaved (updateNote idx key noteId newText now)
  | updatePrioStep (idx : Index) (noteId : String) (p : Priority) (now : Nat) :
      ReachableSaved idx → ReachableSaved (updateNotePriority idx noteId p now)
  | updateCatStep (idx : Index) (noteId : String) (c : Category) (now : Nat) :
      ReachableSaved idx → ReachableSaved (updateNoteCategory idx noteId c now)
  | deleteStep (idx : Index) (key noteId : String) :
      ReachableSaved idx → ReachableSaved (deleteNote idx key noteId)

/-- C3 counterexample: a single `load` of a parse-valid sidecar that maps
`./a.ts` to an empty array — content an external writer can produce — yields
a reachable state in which the key `./a.ts` is present and maps to the empty
note sequence, contradicting the claimed invariant. -/
theorem reachable_state_with_empty_entry :
    ReachableAny (load [] (some [("./a.ts", [])]) 0) ∧
    mapGet (load [] (some [("./a.ts", [])]) 0) "./a.ts" = some [] :=
  ⟨ReachableAny.loadStep [] [("./a.ts", [])] 0 ReachableAny.init, by decide⟩

/-- Setting a non-empty array preserves "all arrays non-empty". -/
theorem mapSet_keeps_nonempty (idx : Index) (k : String) (v : List Note)
    (hwf : ∀ e ∈ idx, e.2 ≠ []) (hv : v ≠ []) :
    ∀ e ∈ mapSet idx k v, e.2 ≠ [] := by
  intro e he
  unfold mapSet at he
  by_cases hmem : List.any idx (fun e2 => e2.1 == k)
  · rw [if_pos hmem] at he
    rcases List.mem_map.mp he with ⟨x, hx, hxe⟩
    by_cases hk : x.1 == k
    · rw [if_pos hk] at hxe
      rw [← hxe]
      exact hv
    · rw [if_neg hk] at hxe
      exact hxe ▸ hwf x hx
  · rw [if_neg hmem] at he
    rcases List.mem_append.mp he with hin | hin
    · exact hwf e hin
    · rcases List.mem_singleton.mp hin with rfl
      exact hv

/-- Deleting a key preserves "all arrays non-empty". -/
theorem mapDelete_keeps_nonempty (idx : Index) (k : String)
    (hwf : ∀ e ∈ idx, e.2 ≠ []) :
    ∀ e ∈ mapDelete idx k, e.2 ≠ [] :=
  fun e he => hwf e (List.mem_of_mem_filter he)

/-- The in-place first-match update never empties an array. -/
theorem updateFirst_ne_nil (p : Note → Bool) (f : Note → Note)
    (ns : List Note) (h : ns ≠ []) : updateFirst p f ns ≠ [] := by
  cases ns with
  | nil => exact absurd rfl h
  | cons n rest =>
    unfold updateFirst
    by_cases hp : p n
    · rw [if_pos hp]; exact List.cons_ne_nil _ _
    · rw [if_neg hp]; exact List.cons_ne_nil _ _

/-- The in-place by-id update preserves "all arrays non-empty". -/
theorem updateById_keeps_nonempty (noteId : String) (f : Note → Note)
    (idx : Index) (hwf : ∀ e ∈ idx, e.2 ≠ []) :
    ∀ e ∈ updateById noteId f idx, e.2 ≠ [] := by
  induction idx with
  | nil => intro e he; cases he
  | cons e rest ih =>
    intro e2 he2
    unfold updateById at he2
    by_cases hany : e.2.any (fun n => n.id == noteId)
    · rw [if_pos hany] at he2
      cases he2 with
      | head =>
        exact updateFirst_ne_nil _ _ e.2 (hwf e (List.mem_cons_self e rest))
      | tail _ hmem => exact hwf e2 (List.mem_cons_of_mem e hmem)
    · rw [if_neg hany] at he2
      cases he2 with
      | head => exact hwf e (List.mem_cons_self e rest)
      | tail _ hmem =>
        exact ih (fun x hx => hwf x (List.mem_cons_of_mem e hx)) e2 hmem

/-- Loading data whose arrays are all non-empty yields an index whose
arrays are all non-empty. -/
theorem loadData_keeps_nonempty (data : List (String × List StoredNote))
    (now : Nat) (hdata : ∀ e ∈ data, e.2 ≠ []) :
    ∀ e ∈ loadData data now, e.2 ≠ [] := by
  unfold loadData
  have hgen : ∀ (l : List (String × List StoredNote)) (acc : Index),
      (∀ e ∈ l, e.2 ≠ []) → (∀ e ∈ acc, e.2 ≠ []) →
      ∀ e ∈ List.foldl (fun acc2 e => mapSet acc2 (normalizeFilePath e.1)
        (e.2.map (migrateNote now))) acc l, e.2 ≠ [] := by
    intro l
    induction l with
    | nil => intro acc _ hacc; exact hacc
    | cons e rest ih =>
      intro acc hl hacc
      rw [List.foldl_cons]
      refine ih _ (fun x hx => hl x (List.mem_cons_of_mem e hx)) ?_
      apply mapSet_keeps_nonempty _ _ _ hacc
      intro hnil
      exact hl e (List.mem_cons_self e rest) (List.map_eq_nil_iff.mp hnil)
  exact hgen data [] hdata (fun e he => absurd he (List.not_mem_nil e))

/-- C3 amended: in every state reachable through load, addNote, updateNote,
updateNotePriority, updateNoteCategory and deleteNote — with loads restricted
to sidecar content whose entries are all non-empty, as `saveNow` always
writes — every key present in the index maps to a non-empty note sequence;
in particular `deleteNote` removes the key when it removes the last note. A
`load` of externally written content with an empty array entry escapes this
invariant (see the counterexample). -/
theorem reachable_saved_key_nonempty (idx : Index) (h : ReachableSaved idx) :
    ∀ e ∈ idx, e.2 ≠ [] := by
  induction h with
  | init => intro e he; cases he
  | loadStep idx data now _ hdata _ =>
    exact loadData_keeps_nonempty data now hdata
  | addStep idx key n _ ih =>
    unfold addNote
    apply mapSet_keeps_nonempty _ _ _ ih
    simp
  | updateStep idx key noteId newText now _ ih =>
    unfold updateNote
    cases hg : mapGet idx key with
    | none => exact ih
    | some fileNotes =>
      simp only []
      by_cases hany : fileNotes.any (fun n => n.id == noteId)
      · rw [if_pos hany]
        apply mapSet_keeps_nonempty _ _ _ ih
        apply updateFirst_ne_nil
        intro hnil
        rw [hnil] at hany
        cases hany
      · rw [if_neg hany]
        exact ih
  | updatePrioStep idx noteId p now _ ih =>
    unfold updateNotePriority
    cases getNoteById idx noteId with
    | none => exact ih
    | some r => exact updateById_keeps_nonempty _ _ _ ih
  | updateCatStep idx noteId c now _ ih =>
    unfold updateNoteCategory
    cases getNoteById idx noteId with
    | none => exact ih
    | some r => exact updateById_keeps_nonempty _ _ _ ih
  | deleteStep idx key noteId _ ih =>
    unfold deleteNote
    cases hg : mapGet idx key with
    | none => exact ih
    | some fileNotes =>
      simp only []
      by_cases hany : fileNotes.any (fun n => n.id == noteId)
      · rw [if_pos hany]
        by_cases hemp : (removeFirst (fun n => n.id == noteId)
            fileNotes).isEmpty
        · rw [if_pos hemp]
          exact mapDelete_keeps_nonempty _ _ ih
        · rw [if_neg hemp]
          apply mapSet_keeps_nonempty _ _ _ ih
          intro hnil
          rw [hnil] at hemp
          exact hemp rfl
      · rw [if_neg hany]
        exact ih

/-- Witness for C3 amended: after adding one note to the empty index, the
resulting entry for `./a.ts` maps to a non-empty sequence. -/
theorem reachable_saved_key_nonempty_witness :
    (("./a.ts", [demoNote]) : String × List Note).2 ≠ [] :=
  reachable_saved_key_nonempty (addNote [] "./a.ts" demoNote)
    (ReachableSaved.addStep [] "./a.ts" demoNote ReachableSaved.init)
    ("./a.ts", [demoNote]) (by decide)

/-- Comparator relation of the JS sort `(a, b) => a.line - b.line`: `a` may
stay before `b` exactly when its line is not greater (JS `Array.sort` is
stable). -/
def noteLineLe (a b : Note) : Prop := a.line ≤ b.line

instance : DecidableRel noteLineLe := fun a b => Nat.decLe a.line b.line

instance : IsTotal Note noteLineLe := ⟨fun a b => Nat.le_total a.line b.line⟩

instance : IsTrans Note noteLineLe :=
  ⟨fun _ _ _ hab hbc => Nat.le_trans hab hbc⟩

/-- JS `notes.sort((a, b) => a.line - b.line)`: stable sort by line. -/
def sortNotesByLine (ns : List Note) : List Note :=
  List.insertionSort noteLineLe ns

/-- The note-array store with array aliasing made explicit: `entries` is the
`Map` content, holding per key an index (a reference) into `arrays`, the
heap of shared JS array objects. -/
structure HeapStore where
  entries : List (String × Nat)
  arrays : List (List Note)

/-- Embeds `NoteStorage.getAllNotes`: `new Map(this.notes)` copies the
key-to-array-reference entries; the `Note[]` objects themselves are not
copied, so both maps hold the same array references. -/
def getAllNotesShallow (st : HeapStore) : List (String × Nat) := st.entries

/-- Array reference a map holds for a key. -/
def refGet (entries : List (String × Nat)) (k : String) : Option Nat :=
  (List.find? (fun e => e.1 == k) entries).map (fun e => e.2)

/-- The note sequence the store itself currently has for a key. -/
def storeNotesFor (st : HeapStore) (k : String) : Option (List Note) :=
  (refGet st.entries k).map (fun r => st.arrays.getD r [])

/-- Embeds `NotesTreeProvider.getNoteItems`: `fileItem.notes.sort((a, b) =>
a.line - b.line)` — an in-place sort of the shared array object `r`. -/
def treeSortInPlace (st : HeapStore) (r : Nat) : HeapStore :=
  { entries := st.entries
    arrays := st.arrays.set r (sortNotesByLine (st.arrays.getD r [])) }

/-- A note on line 5, inserted first. -/
def noteL5 : Note :=
  { id := "a1", line := 5, text := "first inserted", timestamp := 10
    author := "alice", priority := Priority.medium, category := Category.note }

/-- A note on line 2, inserted second. -/
def noteL2 : Note :=
  { id := "a2", line := 2, text := "second inserted", timestamp := 11
    author := "alice", priority := Priority.medium, category := Category.note }

/-- A store holding one file whose array contains the notes in insertion
order: line 5 first, then line 2. -/
def demoHeapStore : HeapStore :=
  { entries := [("./b.ts", 0)], arrays := [[noteL5, noteL2]] }

/-- C8 counterexample: the tree adapter obtains the array reference for
`./b.ts` from the `getAllNotes` copy, sorts that array in place, and the
store's own note sequence changes from insertion order `[line 5, line 2]`
to line order `[line 2, line 5]` — `new Map(this.notes)` copies the entry
structure but shares the arrays, so the copy is not defensive for them. -/
theorem getAllNotes_shared_arrays_mutated :
    refGet (getAllNotesShallow demoHeapStore) "./b.ts" = some 0 ∧
    storeNotesFor demoHeapStore "./b.ts" = some [noteL5, noteL2] ∧
    storeNotesFor (treeSortInPlace demoHeapStore 0) "./b.ts" =
      some [noteL2, noteL5] ∧
    ([noteL2, noteL5] : List Note) ≠ [noteL5, noteL2] := by
  refine ⟨rfl, rfl, ?_, by decide⟩
  decide

/-- The element read back at a just-written heap position. -/
theorem getD_set_self (l : List (List Note)) (r : Nat) (v : List Note) :
    (l.set r v).getD r [] = if r < l.length then v else l.getD r [] := by
  induction l generalizing r with
  | nil => simp
  | cons a as ih =>
    cases r with
    | zero => simp
    | succ r2 =>
      simp only [List.set_cons_succ, List.getD_cons_succ, ih r2,
        List.length_cons]
      by_cases h : r2 < as.length
      · rw [if_pos h, if_pos (Nat.succ_lt_succ h)]
      · rw [if_neg h, if_neg (fun hc => h (Nat.lt_of_succ_lt_succ hc))]

/-- C8 amended: `getAllNotes` returns a shallow copy — the key-to-array
entry structure is a fresh container equal to the store's, but the note
arrays are shared by reference. Consequently, when the tree adapter sorts
in place the array it reached through the copy, the store's own sequence
for that file becomes the line-sorted permutation of what it held (it does
not remain in insertion order), while the entry structure is untouched. -/
theorem getAllNotes_shallow_copy (st : HeapStore) (k : String) (r : Nat)
    (h : refGet (getAllNotesShallow st) k = some r) :
    getAllNotesShallow st = st.entries ∧
    (treeSortInPlace st r).entries = st.entries ∧
    storeNotesFor (treeSortInPlace st r) k =
      some (sortNotesByLine (st.arrays.getD r [])) := by
  refine ⟨rfl, rfl, ?_⟩
  unfold storeNotesFor treeSortInPlace
  rw [show refGet st.entries k = some r from h]
  simp only [Option.map_some']
  rw [getD_set_self]
  by_cases hr : r < st.arrays.length
  · rw [if_pos hr]
  · rw [if_neg hr]
    have hd : st.arrays.getD r [] = [] := by
      unfold List.getD
      rw [List.get?_eq_none.mpr (Nat.le_of_not_lt hr)]
      rfl
    rw [hd]
    rfl

/-- Witness for C8 amended: on the concrete store, sorting through the
copied reference leaves the entry structure unchanged and rewrites the
store's array to its line-sorted permutation. -/
theorem getAllNotes_shallow_copy_witness :
    getAllNotesShallow demoHeapStore = demoHeapStore.entries ∧
    (treeSortInPlace demoHeapStore 0).entries = demoHeapStore.entries ∧
    storeNotesFor (treeSortInPlace demoHeapStore 0) "./b.ts" =
      some (sortNotesByLine (demoHeapStore.arrays.getD 0 [])) :=
  getAllNotes_shallow_copy demoHeapStore "./b.ts" 0 (by decide)

/-- Comparator relation of the export file sort `(a, b) =>
a[0].localeCompare(b[0])`, modelled as lexicographic string order. -/
def entryPathLe (a b : String × List Note) : Prop := a.1 ≤ b.1

instance : DecidableRel entryPathLe :=
  fun a b => inferInstanceAs (Decidable (a.1 ≤ b.1))

instance : IsTotal (String × List Note) entryPathLe :=
  ⟨fun a b => le_total a.1 b.1⟩

instance : IsTrans (String × List Note) entryPathLe :=
  ⟨fun _ _ _ hab hbc => le_trans hab hbc⟩

/-- The export's `Array.from(allNotes.entries()).sort(...)`: stable sort of
the file entries by path. -/
def sortFilesByPath (l : Index) : Index := List.insertionSort entryPathLe l

/-- The per-file listing the export renders: files sorted by path, empty
entries skipped (`if (notes.length === 0) continue`), and within each file
the notes sorted by line (`[...notes].sort((a, b) => a.line - b.line)`). -/
def exportListing (idx : Index) : Index :=
  ((sortFilesByPath idx).filter (fun e => !e.2.isEmpty)).map
    (fun e => (e.1, sortNotesByLine e.2))

/-- The line number the report renders for a note: `Line ${note.line + 1}`,
one-based on top of the zero-based stored line. -/
def reportLine (n : Note) : Nat := n.line + 1

/-- The mutable summary object `{ high: 0, medium: 0, low: 0 }`. -/
structure PrioCounts where
  high : Nat
  medium : Nat
  low : Nat

/-- One loop iteration `summary[note.priority]++`. -/
def bumpPrio (s : PrioCounts) (n : Note) : PrioCounts :=
  match n.priority with
  | Priority.high => { s with high := s.high + 1 }
  | Priority.medium => { s with medium := s.medium + 1 }
  | Priority.low => { s with low := s.low + 1 }

/-- The export's priority tally over all notes of all files. -/
def prioritySummary (idx : Index) : PrioCounts :=
  idx.foldl (fun s e => e.2.foldl bumpPrio s) ⟨0, 0, 0⟩

/-- The mutable category tally `{ todo: 0, bug: 0, question: 0, idea: 0,
note: 0 }`. -/
structure CatCounts where
  todo : Nat
  bug : Nat
  question : Nat
  idea : Nat
  note : Nat

/-- One loop iteration `categories[note.category]++`. -/
def bumpCat (s : CatCounts) (n : Note) : CatCounts :=
  match n.category with
  | Category.todo => { s with todo := s.todo + 1 }
  | Category.bug => { s with bug := s.bug + 1 }
  | Category.question => { s with question := s.question + 1 }
  | Category.idea => { s with idea := s.idea + 1 }
  | Category.note => { s with note := s.note + 1 }

/-- The export's category tally over all notes of all files. -/
def categorySummary (idx : Index) : CatCounts :=
  idx.foldl (fun s e => e.2.foldl bumpCat s) ⟨0, 0, 0, 0, 0⟩

/-- All notes of the index in file-then-position order. -/
def allNotesList (idx : Index) : List Note :=
  (idx.map (fun e => e.2)).flatten

/-- One priority bump adds one to the combined tally. -/
theorem bumpPrio_sum (s : PrioCounts) (n : Note) :
    (bumpPrio s n).high + (bumpPrio s n).medium + (bumpPrio s n).low =
      s.high + s.medium + s.low + 1 := by
  cases hp : n.priority <;> simp [bumpPrio, hp] <;> omega

/-- Folding priority bumps over a note list adds its length. -/
theorem foldl_bumpPrio_sum (ns : List Note) :
    ∀ s : PrioCounts,
    (ns.foldl bumpPrio s).high + (ns.foldl bumpPrio s).medium +
      (ns.foldl bumpPrio s).low = s.high + s.medium + s.low + ns.length := by
  induction ns with
  | nil => intro s; simp
  | cons n rest ih =>
    intro s
    rw [List.foldl_cons, ih (bumpPrio s n), bumpPrio_sum, List.length_cons]
    omega

/-- One category bump adds one to the combined tally. -/
theorem bumpCat_sum (s : CatCounts) (n : Note) :
    (bumpCat s n).todo + (bumpCat s n).bug + (bumpCat s n).question +
      (bumpCat s n).idea + (bumpCat s n).note =
    s.todo + s.bug + s.question + s.idea + s.note + 1 := by
  cases hc : n.category <;> simp [bumpCat, hc] <;> omega

/-- Folding category bumps over a note list adds its length. -/
theorem foldl_bumpCat_sum (ns : List Note) :
    ∀ s : CatCounts,
    (ns.foldl bumpCat s).todo + (ns.foldl bumpCat s).bug +
      (ns.foldl bumpCat s).question + (ns.foldl bumpCat s).idea +
      (ns.foldl bumpCat s).note =
    s.todo + s.bug + s.question + s.idea + s.note + ns.length := by
  induction ns with
  | nil => intro s; simp
  | cons n rest ih =>
    intro s
    rw [List.foldl_cons, ih (bumpCat s n), bumpCat_sum, List.length_cons]
    omega

/-- The total note count is the length of the flattened note list. -/
theorem getTotalNoteCount_eq_length (idx : Index) :
    getTotalNoteCount idx = (allNotesList idx).length := by
  unfold getTotalNoteCount allNotesList
  have hgen : ∀ (l : Index) (a : Nat),
      l.foldl (fun count e => count + e.2.length) a =
        a + ((l.map (fun e => e.2)).flatten).length := by
    intro l
    induction l with
    | nil => intro a; simp
    | cons e rest ih =>
      intro a
      rw [List.foldl_cons, ih (a + e.2.length), List.map_cons,
        List.flatten_cons, List.length_append]
      omega
  rw [hgen idx 0]
  omega

/-- The priority tally over the whole index counts every note once. -/
theorem prioritySummary_total (idx : Index) :
    (prioritySummary idx).high + (prioritySummary idx).medium +
      (prioritySummary idx).low = getTotalNoteCount idx := by
  unfold prioritySummary
  rw [getTotalNoteCount_eq_length]
  have hgen : ∀ (l : Index) (s : PrioCounts),
      (l.foldl (fun s2 e => e.2.foldl bumpPrio s2) s).high +
        (l.foldl (fun s2 e => e.2.foldl bumpPrio s2) s).medium +
        (l.foldl (fun s2 e => e.2.foldl bumpPrio s2) s).low =
      s.high + s.medium + s.low + (allNotesList l).length := by
    intro l
    induction l with
    | nil => intro s; simp [allNotesList]
    | cons e rest ih =>
      intro s
      rw [List.foldl_cons, ih (e.2.foldl bumpPrio s), foldl_bumpPrio_sum]
      have : (allNotesList (e :: rest)).length =
          e.2.length + (allNotesList rest).length := by
        unfold allNotesList
        rw [List.map_cons, List.flatten_cons, List.length_append]
      omega
  rw [hgen idx ⟨0, 0, 0⟩]
  simp

/-- The category tally over the whole index counts every note once. -/
theorem categorySummary_total (idx : Index) :
    (categorySummary idx).todo + (categorySummary idx).bug +
      (categorySummary idx).question + (categorySummary idx).idea +
      (categorySummary idx).note = getTotalNoteCount idx := by
  unfold categorySummary
  rw [getTotalNoteCount_eq_length]
  have hgen : ∀ (l : Index) (s : CatCounts),
      (l.foldl (fun s2 e => e.2.foldl bumpCat s2) s).todo +
        (l.foldl (fun s2 e => e.2.foldl bumpCat s2) s).bug +
        (l.foldl (fun s2 e => e.2.foldl bumpCat s2) s).question +
        (l.foldl (fun s2 e => e.2.foldl bumpCat s2) s).idea +
        (l.foldl (fun s2 e => e.2.foldl bumpCat s2) s).note =
      s.todo + s.bug + s.question + s.idea + s.note +
        (allNotesList l).length := by
    intro l
    induction l with
    | nil => intro s; simp [allNotesList]
    | cons e rest ih =>
      intro s
      rw [List.foldl_cons, ih (e.2.foldl bumpCat s), foldl_bumpCat_sum]
      have : (allNotesList (e :: rest)).length =
          e.2.length + (allNotesList rest).length := by
        unfold allNotesList
        rw [List.map_cons, List.flatten_cons, List.length_append]
      omega
  rw [hgen idx ⟨0, 0, 0, 0, 0⟩]
  simp

/-- Permuting the file entries permutes the flattened note list. -/
theorem flatten_map_perm (l1 l2 : Index) (h : List.Perm l1 l2) :
    List.Perm ((l1.map (fun e => e.2)).flatten)
      ((l2.map (fun e => e.2)).flatten) := by
  induction h with
  | nil => exact List.Perm.refl _
  | cons x _ ih =>
    rw [List.map_cons, List.map_cons, List.flatten_cons, List.flatten_cons]
    exact List.Perm.append_left x.2 ih
  | swap x y l =>
    rw [List.map_cons, List.map_cons, List.map_cons, List.map_cons,
      List.flatten_cons, List.flatten_cons, List.flatten_cons,
      List.flatten_cons, ← List.append_assoc, ← List.append_assoc]
    exact List.Perm.append_right _ List.perm_append_comm
  | trans _ _ ih1 ih2 => exact ih1.trans ih2

/-- Sorting each file's notes permutes the flattened note list. -/
theorem flatten_map_sorted_perm (l : Index) :
    List.Perm (((l.map (fun e => (e.1, sortNotesByLine e.2))).map
      (fun e => e.2)).flatten) ((l.map (fun e => e.2)).flatten) := by
  induction l with
  | nil => exact List.Perm.refl _
  | cons e rest ih =>
    rw [List.map_cons, List.map_cons, List.map_cons, List.flatten_cons,
      List.flatten_cons]
    exact List.Perm.append (List.perm_insertionSort noteLineLe e.2) ih

/-- Dropping the empty entries does not change the flattened note list. -/
theorem flatten_map_filter_nonempty (l : Index) :
    ((l.filter (fun e => !e.2.isEmpty)).map (fun e => e.2)).flatten =
      (l.map (fun e => e.2)).flatten := by
  induction l with
  | nil => rfl
  | cons e rest ih =>
    cases h2 : e.2 with
    | nil =>
      have hc : (!e.2.isEmpty) = false := by rw [h2]; rfl
      rw [List.filter_cons, hc]
      simp only [Bool.false_eq_true, if_false]
      rw [ih, List.map_cons, List.flatten_cons, h2, List.nil_append]
    | cons n ns =>
      have hc : (!e.2.isEmpty) = true := by rw [h2]; rfl
      rw [List.filter_cons, hc]
      simp only [if_true]
      rw [List.map_cons, List.map_cons, List.flatten_cons,
        List.flatten_cons, ih]

/-- A concrete index with two files and three notes, file keys and note
lines both out of order. -/
def demoIdx9 : Index := [("./b.ts", [noteL5, noteL2]), ("./a.ts", [demoNote])]

/-- C9: for an index with at least one note, the exported report's priority
counts and category counts each sum to the total note count; the per-file
listing contains every note of the index exactly once (its flattened note
list is a permutation of the index's); files appear sorted by path
ascending; within each file the notes are sorted by line ascending; and each
note's rendered line number is its zero-based `line` plus one. -/
theorem export_report_correct (idx : Index)
    (_htotal : 0 < getTotalNoteCount idx) :
    (prioritySummary idx).high + (prioritySummary idx).medium +
      (prioritySummary idx).low = getTotalNoteCount idx ∧
    (categorySummary idx).todo + (categorySummary idx).bug +
      (categorySummary idx).question + (categorySummary idx).idea +
      (categorySummary idx).note = getTotalNoteCount idx ∧
    List.Perm (((exportListing idx).map (fun e => e.2)).flatten)
      (allNotesList idx) ∧
    List.Pairwise (fun a b : String × List Note => a.1 ≤ b.1)
      (exportListing idx) ∧
    (∀ e ∈ exportListing idx,
      List.Pairwise (fun a b : Note => a.line ≤ b.line) e.2) ∧
    (∀ e ∈ exportListing idx, ∀ n ∈ e.2, reportLine n = n.line + 1) := by
  refine ⟨prioritySummary_total idx, categorySummary_total idx, ?_, ?_, ?_, ?_⟩
  · unfold exportListing allNotesList
    have step1 := flatten_map_sorted_perm
      ((sortFilesByPath idx).filter (fun e => !e.2.isEmpty))
    have step2 := flatten_map_filter_nonempty (sortFilesByPath idx)
    have step3 := flatten_map_perm (sortFilesByPath idx) idx
      (List.perm_insertionSort entryPathLe idx)
    exact step1.trans (step2 ▸ step3)
  · exact List.pairwise_map.mpr
      (List.Pairwise.filter _ (List.sorted_insertionSort entryPathLe idx))
  · intro e he
    rcases List.mem_map.mp he with ⟨x, _, rfl⟩
    exact List.sorted_insertionSort noteLineLe x.2
  · intro e _ n _
    rfl

/-- Witness for C9 at the concrete three-note index. -/
theorem export_report_correct_witness :
    0 < getTotalNoteCount demoIdx9 ∧
    ((prioritySummary demoIdx9).high + (prioritySummary demoIdx9).medium +
      (prioritySummary demoIdx9).low = getTotalNoteCount demoIdx9 ∧
    (categorySummary demoIdx9).todo + (categorySummary demoIdx9).bug +
      (categorySummary demoIdx9).question + (categorySummary demoIdx9).idea +
      (categorySummary demoIdx9).note = getTotalNoteCount demoIdx9 ∧
    List.Perm (((exportListing demoIdx9).map (fun e => e.2)).flatten)
      (allNotesList demoIdx9) ∧
    List.Pairwise (fun a b : String × List Note => a.1 ≤ b.1)
      (exportListing demoIdx9) ∧
    (∀ e ∈ exportListing demoIdx9,
      List.Pairwise (fun a b : Note => a.line ≤ b.line) e.2) ∧
    (∀ e ∈ exportListing demoIdx9, ∀ n ∈ e.2,
      reportLine n = n.line + 1)) :=
  ⟨by decide, export_report_correct demoIdx9 (by decide)⟩

/-- JS `String.prototype.replace` with a global single-character pattern:
each occurrence of `pat` in the character list becomes `rep`. -/
def replaceAllChar (pat : Char) (rep : List Char) : List Char → List Char
  | [] => []
  | c :: cs => (if c = pat then rep else [c]) ++ replaceAllChar pat rep cs

/-- Embeds `escapeHtml` (exportProvider.ts): the five sequential global
replaces, ampersand first, then `<`, `>`, `"` and the apostrophe. -/
def escapeHtml (s : String) : String :=
  String.mk (replaceAllChar '\'' "&#39;".data
    (replaceAllChar '"' "&quot;".data
      (replaceAllChar '>' "&gt;".data
        (replaceAllChar '<' "&lt;".data
          (replaceAllChar '&' "&amp;".data s.data)))))

/-- Per-character entity expansion: what the five replaces amount to on one
character. -/
def escChar (c : Char) : List Char :=
  if c = '&' then "&amp;".data
  else if c = '<' then "&lt;".data
  else if c = '>' then "&gt;".data
  else if c = '"' then "&quot;".data
  else if c = '\'' then "&#39;".data
  else [c]

/-- The note-text block of the HTML export (exportProvider.ts): the note's
text is embedded through `escapeHtml`. -/
def htmlNoteTextDiv (n : Note) : String :=
  "<div class=\"note-text\">" ++ escapeHtml n.text ++ "</div>"

/-- The note-text block of the Markdown export (exportProvider.ts):
`${note.text}\n\n` — the raw text, unescaped. -/
def mdNoteText (n : Note) : String := n.text ++ "\n\n"

/-- A single-character replace distributes over list append. -/
theorem replaceAllChar_append (pat : Char) (rep : List Char)
    (l1 l2 : List Char) :
    replaceAllChar pat rep (l1 ++ l2) =
      replaceAllChar pat rep l1 ++ replaceAllChar pat rep l2 := by
  induction l1 with
  | nil => rfl
  | cons c cs ih =>
    rw [List.cons_append]
    show (if c = pat then rep else [c]) ++ replaceAllChar pat rep (cs ++ l2) =
      ((if c = pat then rep else [c]) ++ replaceAllChar pat rep cs) ++
        replaceAllChar pat rep l2
    rw [ih, List.append_assoc]

/-- A single non-matching character passes a replace unchanged. -/
theorem replaceAllChar_single_ne (pat : Char) (rep : List Char) (x : Char)
    (h : x ≠ pat) : replaceAllChar pat rep [x] = [x] := by
  simp [replaceAllChar, h]

/-- The full five-stage pipeline on a character list. -/
def escPipe (l : List Char) : List Char :=
  replaceAllChar '\'' "&#39;".data
    (replaceAllChar '"' "&quot;".data
      (replaceAllChar '>' "&gt;".data
        (replaceAllChar '<' "&lt;".data
          (replaceAllChar '&' "&amp;".data l))))

/-- The pipeline distributes over append. -/
theorem escPipe_append (l1 l2 : List Char) :
    escPipe (l1 ++ l2) = escPipe l1 ++ escPipe l2 := by
  unfold escPipe
  rw [replaceAllChar_append, replaceAllChar_append, replaceAllChar_append,
    replaceAllChar_append, replaceAllChar_append]

/-- On one character, the five sequential replaces compute the entity
expansion: the later stages never touch the characters an earlier stage
introduced. -/
theorem escPipe_single (c : Char) : escPipe [c] = escChar c := by
  by_cases h1 : c = '&'
  · subst h1; decide
  · by_cases h2 : c = '<'
    · subst h2; decide
    · by_cases h3 : c = '>'
      · subst h3; decide
      · by_cases h4 : c = '"'
        · subst h4; decide
        · by_cases h5 : c = '\''
          · subst h5; decide
          · unfold escPipe
            rw [replaceAllChar_single_ne _ _ _ h1,
              replaceAllChar_single_ne _ _ _ h2,
              replaceAllChar_single_ne _ _ _ h3,
              replaceAllChar_single_ne _ _ _ h4,
              replaceAllChar_single_ne _ _ _ h5]
            unfold escChar
            simp [h1, h2, h3, h4, h5]

/-- The sequential pipeline equals the single-pass per-character expansion. -/
theorem escPipe_eq_flatMap (l : List Char) :
    escPipe l = (l.map escChar).flatten := by
  induction l with
  | nil => rfl
  | cons c cs ih =>
    have hsplit : escPipe (c :: cs) = escPipe [c] ++ escPipe cs := by
      rw [show (c :: cs) = [c] ++ cs from rfl, escPipe_append]
    rw [hsplit, escPipe_single, ih, List.map_cons, List.flatten_cons]

/-- No expansion block contains a raw `<`, `>`, `"` or apostrophe. -/
theorem escChar_no_specials (c : Char) :
    ∀ x ∈ escChar c, x ≠ '<' ∧ x ≠ '>' ∧ x ≠ '"' ∧ x ≠ '\'' := by
  unfold escChar
  by_cases h1 : c = '&'
  · subst h1; decide
  · by_cases h2 : c = '<'
    · subst h2; decide
    · by_cases h3 : c = '>'
      · subst h3; decide
      · by_cases h4 : c = '"'
        · subst h4; decide
        · by_cases h5 : c = '\''
          · subst h5; decide
          · simp only [h1, h2, h3, h4, h5, if_false]
            intro x hx
            rcases List.mem_singleton.mp hx with rfl
            exact ⟨h2, h3, h4, h5⟩

/-- C10: the HTML export embeds a note's text only through `escapeHtml`,
whose output is exactly the concatenation of the per-character entity
expansions — every `&`, `<`, `>`, `"` and `'` of the original text becomes
its entity, so no unescaped occurrence of `<`, `>`, `"` or `'` remains in
the embedded text and every `&` in it heads an entity block — while the
Markdown export embeds the raw text with no escaping. -/
theorem escape_html_in_html_not_in_markdown (s : String) (n : Note) :
    (escapeHtml s).data = (s.data.map escChar).flatten ∧
    (∀ c ∈ (escapeHtml s).data,
      c ≠ '<' ∧ c ≠ '>' ∧ c ≠ '"' ∧ c ≠ '\'') ∧
    htmlNoteTextDiv n =
      "<div class=\"note-text\">" ++ escapeHtml n.text ++ "</div>" ∧
    mdNoteText n = n.text ++ "\n\n" := by
  have hdata : (escapeHtml s).data = (s.data.map escChar).flatten :=
    escPipe_eq_flatMap s.data
  refine ⟨hdata, ?_, rfl, rfl⟩
  intro c hc
  rw [hdata] at hc
  rcases List.mem_flatten.mp hc with ⟨block, hblock, hcin⟩
  rcases List.mem_map.mp hblock with ⟨x, _, rfl⟩
  exact escChar_no_specials x c hcin

/-- Witness for C10 on the text `a<b&c` embedded in `demoNote`'s fields. -/
theorem escape_html_in_html_not_in_markdown_witness :
    (escapeHtml "a<b&c").data = (("a<b&c").data.map escChar).flatten ∧
    (∀ c ∈ (escapeHtml "a<b&c").data,
      c ≠ '<' ∧ c ≠ '>' ∧ c ≠ '"' ∧ c ≠ '\'') ∧
    htmlNoteTextDiv demoNote =
      "<div class=\"note-text\">" ++ escapeHtml demoNote.text ++ "</div>" ∧
    mdNoteText demoNote = demoNote.text ++ "\n\n" :=
  escape_html_in_html_not_in_markdown "a<b&c" demoNote
